import Mathlib

/-!
Verification development for the MQTT LED clock firmware
(`src/MQTT_LED_Clock.ino`).

The firmware is shallowly embedded as follows:

* Inbound MQTT payloads are lists of byte values (`List Nat`, each element a
  `byte`).  The C-string handling of `mqttCallback` (fixed zero-initialised
  buffers, truncation of the copy loop, `strtol`/`atoi`) is modelled
  byte-for-byte.
* The NeoPixel strip is a pixel-colour valuation `Buf := Nat → Nat`
  (packed 32-bit colour per index; only indices `< 86` are physical pixels).
  `Adafruit_NeoPixel::fill` is modelled with its real clamping behaviour,
  including the `int → uint16_t` conversion of the `first` argument at the
  call sites.
* The digit functions `digitZero` .. `digitNine` are represented by the exact
  list of `fill` calls they perform (same order, offsets and counts as the
  source), executed by `runFills`.
* One iteration of `loop()` is `loopStep`, a function of the current global
  state (`ClockState`) and of the environment observed during that cycle
  (`CycleEnv`: Wi-Fi status, MQTT session status at the reconnect check, the
  messages delivered by `mqttClient.loop()`, the value of `millis()`, and the
  result of `getLocalTime`).
-/

namespace LedClock

/-! ## Byte-level character classes (C locale, as used by newlib on ESP32) -/

/-- C `isspace` on a byte value. -/
def isSpace (c : Nat) : Bool :=
  decide (c = 32) || (decide (9 ≤ c) && decide (c ≤ 13))

/-- C `isdigit` on a byte value. -/
def isDigit (c : Nat) : Bool :=
  decide (48 ≤ c) && decide (c ≤ 57)

/-- C `isxdigit` on a byte value. -/
def isHexDigit (c : Nat) : Bool :=
  isDigit c || (decide (65 ≤ c) && decide (c ≤ 70)) || (decide (97 ≤ c) && decide (c ≤ 102))

/-- Numeric value of a hexadecimal digit byte. -/
def hexVal (c : Nat) : Nat :=
  if isDigit c then c - 48
  else if decide (65 ≤ c) && decide (c ≤ 70) then c - 55
  else if decide (97 ≤ c) && decide (c ≤ 102) then c - 87
  else 0

/-- Value of a string of hexadecimal digit bytes (most significant first). -/
def hexListVal (ds : List Nat) : Nat :=
  ds.foldl (fun a c => a * 16 + hexVal c) 0

/-- Value of a string of decimal digit bytes (most significant first). -/
def decListVal (ds : List Nat) : Nat :=
  ds.foldl (fun a c => a * 10 + (c - 48)) 0

/-- The effective C string held in a zero-initialised buffer after the copy
loops of `mqttCallback`: the bytes up to (excluding) the first NUL. -/
def cstr (buf : List Nat) : List Nat :=
  buf.takeWhile (fun c => decide (c ≠ 0))

/-! ## `strtol(_, _, 16)` and `atoi`

`mqttCallback` calls `strtol(hexStr, &endptr, 16)` and checks
`*endptr == '\0'`.  `strtol` in base 16 skips leading whitespace, consumes an
optional sign, an optional `0x`/`0X` prefix, then a maximal run of hex digits;
when no conversion is performed `endptr` is the original string.  `strtol16`
returns the parsed value together with the suffix `endptr` points at (so
`*endptr == '\0'` is exactly "the returned suffix is empty").  Overflow
clamping is irrelevant here: the caller requires `strlen(hexStr) == 6`, so the
magnitude is below `16^6 < LONG_MAX`. -/

/-- Model of `strtol(s, &endptr, 16)` on a NUL-terminated byte string `s`
(no interior NULs).  Returns (value, suffix at `endptr`). -/
def strtol16 (s : List Nat) : Int × List Nat :=
  let t := s.dropWhile isSpace
  let neg := t.head? == some 45
  let t1 := if t.head? == some 45 || t.head? == some 43 then t.tail else t
  let t2 :=
    if t1.head? == some 48 && (t1.tail.head? == some 120 || t1.tail.head? == some 88)
        && (t1.tail.tail.head?.map isHexDigit).getD false
    then t1.tail.tail else t1
  let ds := t2.takeWhile isHexDigit
  let rest := t2.dropWhile isHexDigit
  if ds.isEmpty then (0, s)
  else ((if neg then -(hexListVal ds : Int) else (hexListVal ds : Int)), rest)

/-- Model of `atoi(s)` on a NUL-terminated byte string `s`: skip whitespace,
optional sign, maximal run of decimal digits (value 0 when there is none).
No overflow is possible at the call site (at most 4 characters). -/
def atoiM (s : List Nat) : Int :=
  let t := s.dropWhile isSpace
  let neg := t.head? == some 45
  let t1 := if t.head? == some 45 || t.head? == some 43 then t.tail else t
  let ds := t1.takeWhile isDigit
  if neg then -(decListVal ds : Int) else (decListVal ds : Int)

/-! ## Global state touched by `mqttCallback` and `loop()` -/

/-- Number of NeoPixels (`LEDCLOCK_COUNT`). -/
def NUMPIXELS : Nat := 86

/-- The pixel buffer of the strip: packed colour value per index.  Only
indices `< NUMPIXELS` correspond to physical pixels; `setPixelColor` (and
hence `fill`) never writes outside that range. -/
def Buf : Type := Nat → Nat

/-- Model of `stripClock.clear()`: every pixel colour becomes 0. -/
def clearBuf : Buf := fun _ => 0

/-- The cleared buffer (state of the strip right after `clear()`). -/
def bufClear : Buf := clearBuf

/-- The configured default colour `clockColour = 0xD0D37D`.  The global is
never written after initialisation. -/
def clockColour : Nat := 0xD0D37D

/-- The mutable globals of the sketch that the claims are about:
`mqttColorActive`, `mqttColor`, `brightness`, `lastTimeSync`,
`currentHour`/`currentMinute`, and the strip's pixel buffer. -/
structure ClockState where
  mqttColorActive : Bool
  mqttColor : Nat
  brightness : Int
  lastTimeSync : Nat
  currentHour : Nat
  currentMinute : Nat
  strip : Buf

/-- Initial values of the globals (`mqttColorActive = false`, `mqttColor = 0`,
`brightness = 25`, `lastTimeSync = 0`, time fields 0, strip cleared). -/
def initState : ClockState :=
  ⟨false, 0, 25, 0, 0, 0, bufClear⟩

/-! ## `mqttCallback`: colour topic branch (lines 296-317) -/

/-- The C string `hexStr` of the colour branch: the first at most 7 payload
bytes (the copy loop bound `i < length && i < 7` into the zero-initialised
`char colorStr[8]`), cut at the first NUL, with one leading `'#'` (byte 35)
skipped (`if (colorStr[0] == '#') hexStr++`). -/
def colorHexStr (payload : List Nat) : List Nat :=
  let colorStr := cstr (payload.take 7)
  if colorStr.head? == some 35 then colorStr.tail else colorStr

/-- The acceptance condition of the colour branch:
`*endptr == '\0' && strlen(hexStr) == 6`. -/
def colorAccepts (payload : List Nat) : Bool :=
  (strtol16 (colorHexStr payload)).2.isEmpty && (colorHexStr payload).length == 6

/-- The colour-topic branch of `mqttCallback`.  `length == 0` clears the
override; an accepted payload stores `(uint32_t)colorVal` and activates the
override; any other payload deactivates it. -/
def applyColorMsg (payload : List Nat) (st : ClockState) : ClockState :=
  if payload.length == 0 then { st with mqttColorActive := false }
  else if colorAccepts payload then
    { st with
      mqttColor := ((strtol16 (colorHexStr payload)).1 % 4294967296).toNat
      mqttColorActive := true }
  else { st with mqttColorActive := false }

/-! ## `mqttCallback`: brightness topic branch (lines 318-332) -/

/-- The C string in `brightnessStr`: the first at most 4 payload bytes (copy
loop bound `i < length && i < 4` into the zero-initialised
`char brightnessStr[5]`), cut at the first NUL. -/
def brightnessCStr (payload : List Nat) : List Nat :=
  cstr (payload.take 4)

/-- The brightness-topic branch of `mqttCallback`: for a non-empty payload,
`val = atoi(brightnessStr)` is stored iff `val >= 0 && val <= 255`. -/
def applyBrightnessMsg (payload : List Nat) (st : ClockState) : ClockState :=
  if 0 < payload.length then
    let val := atoiM (brightnessCStr payload)
    if 0 ≤ val ∧ val ≤ 255 then { st with brightness := val } else st
  else st

/-- The logical topic of an inbound message.  The sketch compares the topic
string against the two distinct configured topic strings
(`stored_mqtt_color_topic`, `stored_mqtt_brightness_topic`); unrecognized
topics fall through both `strcmp` tests and are ignored. -/
inductive Topic where
  | color
  | brightness
  | other
deriving DecidableEq

/-- Dispatch of `mqttCallback` by topic. -/
def handleMessage (t : Topic) (payload : List Nat) (st : ClockState) : ClockState :=
  match t with
  | Topic.color => applyColorMsg payload st
  | Topic.brightness => applyBrightnessMsg payload st
  | Topic.other => st

/-- Spec-side predicate (§4.4): an optional leading `'#'` followed by exactly
6 hexadecimal characters. -/
def stripHash (p : List Nat) : List Nat :=
  if p.head? == some 35 then p.tail else p

/-- Spec-side predicate (§4.4): the payload is an optional leading `'#'`
followed by exactly 6 hexadecimal characters. -/
def isCanonicalColor (p : List Nat) : Bool :=
  (stripHash p).length == 6 && (stripHash p).all isHexDigit

/-! ## `Adafruit_NeoPixel::fill` and the digit functions (lines 218-294)

`fill(c, first, count)` returns immediately when `first >= numLEDs`, and
otherwise writes `c` to the indices `first .. end-1` where
`end = numLEDs` if `count == 0` and `end = min(first+count, numLEDs)`
otherwise.  The `first` argument is `uint16_t`; the digit functions pass the
`int` expression `offsetBy + k`, which converts modulo `2^16`. -/

/-- The exclusive end index of a `fill(c, first, count)` call. -/
def fillEnd (first count : Nat) : Nat :=
  if count = 0 then NUMPIXELS else min (first + count) NUMPIXELS

/-- Model of `Adafruit_NeoPixel::fill`, pointwise on the pixel buffer. -/
def fill (c first count : Nat) (b : Buf) : Buf := fun i =>
  if NUMPIXELS ≤ first then b i
  else if first ≤ i ∧ i < fillEnd first count then c else b i

/-- Execute a list of `(first, count)` fill calls (in order, all with colour
`c`), applying the `int → uint16_t` conversion of the `first` argument. -/
def runFills (c : Nat) (calls : List (Nat × Nat)) (b : Buf) : Buf :=
  calls.foldl (fun bb p => fill c (p.1 % 65536) p.2 bb) b

/-- Fill calls of `digitZero`: lower right, bottom, lower left, upper left,
top, upper right (3 LEDs each). -/
def digitZeroCalls (offsetBy : Nat) : List (Nat × Nat) :=
  [(offsetBy, 3), (offsetBy + 3, 3), (offsetBy + 6, 3), (offsetBy + 9, 3),
   (offsetBy + 12, 3), (offsetBy + 15, 3)]

/-- Fill calls of `digitOne`: lower right, upper right. -/
def digitOneCalls (offsetBy : Nat) : List (Nat × Nat) :=
  [(offsetBy, 3), (offsetBy + 15, 3)]

/-- Fill calls of `digitTwo`: bottom, lower left, top, upper right, middle. -/
def digitTwoCalls (offsetBy : Nat) : List (Nat × Nat) :=
  [(offsetBy + 3, 3), (offsetBy + 6, 3), (offsetBy + 12, 3), (offsetBy + 15, 3),
   (offsetBy + 18, 3)]

/-- Fill calls of `digitThree`: lower right, bottom, top, upper right, middle. -/
def digitThreeCalls (offsetBy : Nat) : List (Nat × Nat) :=
  [(offsetBy, 3), (offsetBy + 3, 3), (offsetBy + 12, 3), (offsetBy + 15, 3),
   (offsetBy + 18, 3)]

/-- Fill calls of `digitFour`: lower right, upper left, upper right, middle. -/
def digitFourCalls (offsetBy : Nat) : List (Nat × Nat) :=
  [(offsetBy, 3), (offsetBy + 9, 3), (offsetBy + 15, 3), (offsetBy + 18, 3)]

/-- Fill calls of `digitFive`: lower right, bottom, upper left, top, middle. -/
def digitFiveCalls (offsetBy : Nat) : List (Nat × Nat) :=
  [(offsetBy, 3), (offsetBy + 3, 3), (offsetBy + 9, 3), (offsetBy + 12, 3),
   (offsetBy + 18, 3)]

/-- Fill calls of `digitSix`: lower right, bottom, lower left, upper left,
top, middle. -/
def digitSixCalls (offsetBy : Nat) : List (Nat × Nat) :=
  [(offsetBy, 3), (offsetBy + 3, 3), (offsetBy + 6, 3), (offsetBy + 9, 3),
   (offsetBy + 12, 3), (offsetBy + 18, 3)]

/-- Fill calls of `digitSeven`: lower right, top, upper right. -/
def digitSevenCalls (offsetBy : Nat) : List (Nat × Nat) :=
  [(offsetBy, 3), (offsetBy + 12, 3), (offsetBy + 15, 3)]

/-- Fill calls of `digitEight`: all seven segments. -/
def digitEightCalls (offsetBy : Nat) : List (Nat × Nat) :=
  [(offsetBy, 3), (offsetBy + 3, 3), (offsetBy + 6, 3), (offsetBy + 9, 3),
   (offsetBy + 12, 3), (offsetBy + 15, 3), (offsetBy + 18, 3)]

/-- Fill calls of `digitNine`: lower right, upper left, top, upper right,
middle. -/
def digitNineCalls (offsetBy : Nat) : List (Nat × Nat) :=
  [(offsetBy, 3), (offsetBy + 9, 3), (offsetBy + 12, 3), (offsetBy + 15, 3),
   (offsetBy + 18, 3)]

def digitZero (offsetBy colourToUse : Nat) (b : Buf) : Buf :=
  runFills colourToUse (digitZeroCalls offsetBy) b

def digitOne (offsetBy colourToUse : Nat) (b : Buf) : Buf :=
  runFills colourToUse (digitOneCalls offsetBy) b

def digitTwo (offsetBy colourToUse : Nat) (b : Buf) : Buf :=
  runFills colourToUse (digitTwoCalls offsetBy) b

def digitThree (offsetBy colourToUse : Nat) (b : Buf) : Buf :=
  runFills colourToUse (digitThreeCalls offsetBy) b

def digitFour (offsetBy colourToUse : Nat) (b : Buf) : Buf :=
  runFills colourToUse (digitFourCalls offsetBy) b

def digitFive (offsetBy colourToUse : Nat) (b : Buf) : Buf :=
  runFills colourToUse (digitFiveCalls offsetBy) b

def digitSix (offsetBy colourToUse : Nat) (b : Buf) : Buf :=
  runFills colourToUse (digitSixCalls offsetBy) b

def digitSeven (offsetBy colourToUse : Nat) (b : Buf) : Buf :=
  runFills colourToUse (digitSevenCalls offsetBy) b

def digitEight (offsetBy colourToUse : Nat) (b : Buf) : Buf :=
  runFills colourToUse (digitEightCalls offsetBy) b

def digitNine (offsetBy colourToUse : Nat) (b : Buf) : Buf :=
  runFills colourToUse (digitNineCalls offsetBy) b

/-- Model of `displayNumber` (lines 181-216): `switch (digitToDisplay)` dispatching to
the digit functions; the `default` case does nothing.  `digitToDisplay` is a
C `int`, hence `Int` here. -/
def displayNumber (digitToDisplay : Int) (offsetBy colourToUse : Nat) (b : Buf) : Buf :=
  if digitToDisplay = 0 then digitZero offsetBy colourToUse b
  else if digitToDisplay = 1 then digitOne offsetBy colourToUse b
  else if digitToDisplay = 2 then digitTwo offsetBy colourToUse b
  else if digitToDisplay = 3 then digitThree offsetBy colourToUse b
  else if digitToDisplay = 4 then digitFour offsetBy colourToUse b
  else if digitToDisplay = 5 then digitFive offsetBy colourToUse b
  else if digitToDisplay = 6 then digitSix offsetBy colourToUse b
  else if digitToDisplay = 7 then digitSeven offsetBy colourToUse b
  else if digitToDisplay = 8 then digitEight offsetBy colourToUse b
  else if digitToDisplay = 9 then digitNine offsetBy colourToUse b
  else b

/-- The fill calls performed by `displayNumber` (same dispatch). -/
def displayNumberCalls (digitToDisplay : Int) (offsetBy : Nat) : List (Nat × Nat) :=
  if digitToDisplay = 0 then digitZeroCalls offsetBy
  else if digitToDisplay = 1 then digitOneCalls offsetBy
  else if digitToDisplay = 2 then digitTwoCalls offsetBy
  else if digitToDisplay = 3 then digitThreeCalls offsetBy
  else if digitToDisplay = 4 then digitFourCalls offsetBy
  else if digitToDisplay = 5 then digitFiveCalls offsetBy
  else if digitToDisplay = 6 then digitSixCalls offsetBy
  else if digitToDisplay = 7 then digitSevenCalls offsetBy
  else if digitToDisplay = 8 then digitEightCalls offsetBy
  else if digitToDisplay = 9 then digitNineCalls offsetBy
  else []

/-- Model of `displayTheTime` (lines 155-179).  `currentHour` is `tm_hour ∈ [0,23]`
and `currentMinute` is `tm_min ∈ [0,59]`, both non-negative, so they are
taken as `Nat` here; the derived digit arguments are the `int` values the
source passes to `displayNumber` (`floor(currentMinute / 10)` is already
integer division of two `int`s).  The trailing `stripClock.show()` transmits
the buffer and does not change it. -/
def displayTheTime (currentHour currentMinute currentColor : Nat) (_b : Buf) : Buf :=
  let b0 := clearBuf
  let b1 := displayNumber ((currentMinute % 10 : Nat) : Int) 0 currentColor b0
  let b2 := displayNumber ((currentMinute / 10 : Nat) : Int) 21 currentColor b1
  let b3 := fill currentColor 42 1 b2
  let b4 := fill currentColor 43 1 b3
  if 9 < currentHour then
    displayNumber ((currentHour % 10 : Nat) : Int) 44 currentColor
      (displayNumber ((currentHour / 10 : Nat) : Int) 65 currentColor b4)
  else
    displayNumber ((currentHour : Nat) : Int) 44 currentColor b4

/-- The list of fill calls performed while composing one frame (hour part in
source order: tens at 65 first when `hour > 9`, then ones at 44). -/
def displayTheTimeCalls (h m : Nat) : List (Nat × Nat) :=
  displayNumberCalls ((m % 10 : Nat) : Int) 0
    ++ displayNumberCalls ((m / 10 : Nat) : Int) 21
    ++ [(42, 1), (43, 1)]
    ++ (if 9 < h then
          displayNumberCalls ((h / 10 : Nat) : Int) 65
            ++ displayNumberCalls ((h % 10 : Nat) : Int) 44
        else displayNumberCalls ((h : Nat) : Int) 44)

/-- A call list writes to index `i` when some `(first, count)` range of it
contains `i`. -/
def writesTo (calls : List (Nat × Nat)) (i : Nat) : Prop :=
  ∃ p ∈ calls, p.1 ≤ i ∧ i < p.1 + p.2

instance (calls : List (Nat × Nat)) (i : Nat) : Decidable (writesTo calls i) :=
  List.decidableBEx _ calls

/-! ## Spec-side segment geometry (§4.2) -/

/-- The digit → segment-offset table of §4.2, with segments replaced by their
relative LED offsets (lower-right +0, bottom +3, lower-left +6, upper-left +9,
top +12, upper-right +15, middle +18). -/
def segTable (d : Nat) : List Nat :=
  if d = 0 then [0, 3, 6, 9, 12, 15]
  else if d = 1 then [0, 15]
  else if d = 2 then [3, 6, 12, 15, 18]
  else if d = 3 then [0, 3, 12, 15, 18]
  else if d = 4 then [0, 9, 15, 18]
  else if d = 5 then [0, 3, 9, 12, 18]
  else if d = 6 then [0, 3, 6, 9, 12, 18]
  else if d = 7 then [0, 12, 15]
  else if d = 8 then [0, 3, 6, 9, 12, 15, 18]
  else if d = 9 then [0, 9, 12, 15, 18]
  else []

/-- Spec-side: index `i` belongs to some segment run `[base+r, base+r+3)` of
digit `d` placed at `base`. -/
def renderSpecAt (d base i : Nat) : Bool :=
  (segTable d).any (fun r => decide (base + r ≤ i) && decide (i < base + r + 3))

/-- Spec-side frame predicate (§4.3): index `i` is lit when composing a frame
for `h:m` — by a minute digit, the separator pixels 42/43, or an hour digit
(tens slot only when `h > 9`). -/
def frameSpecB (h m i : Nat) : Bool :=
  renderSpecAt (m % 10) 0 i || renderSpecAt (m / 10) 21 i || i == 42 || i == 43 ||
    (if 9 < h then renderSpecAt (h / 10) 65 i || renderSpecAt (h % 10) 44 i
     else renderSpecAt h 44 i)

/-! ## One iteration of `loop()` (lines 103-153)

The Wi-Fi reconnect attempt at the top of the loop only touches the link (and
the `wifiConnected` flag used for the end-of-loop delay); the state it leaves
is summarised by `CycleEnv.wifiUp`, the value of `WiFi.status()` at the
`if (WiFi.status() == WL_CONNECTED)` check of line 129.  `connectToMQTT()`
only returns once the session is connected (it subscribes but processes no
messages); the messages subsequently delivered by `mqttClient.loop()` are
`CycleEnv.msgs`. -/

/-- What the environment supplies to one `loop()` iteration. -/
structure CycleEnv where
  /-- Value of `WiFi.status() == WL_CONNECTED` at the MQTT section of the loop. -/
  wifiUp : Bool
  /-- Value of `mqttClient.connected()` at the reconnect check (line 130). -/
  mqttConnectedAtCheck : Bool
  /-- Messages delivered by `mqttClient.loop()` this cycle, in order. -/
  msgs : List (Topic × List Nat)
  /-- Value of `millis()` at the resync check (a 32-bit wrapping counter). -/
  now : Nat
  /-- Whether `getLocalTime` succeeded. -/
  timeValid : Bool
  /-- Field `tm_hour` of the obtained time (∈ [0,23]). -/
  tmHour : Nat
  /-- Field `tm_min` of the obtained time (∈ [0,59]). -/
  tmMin : Nat

/-- The constant `syncInterval = 900000` ms (15 minutes). -/
def syncInterval : Nat := 900000

/-- The unsigned 32-bit subtraction `millis() - lastTimeSync` performed at
line 113 (`unsigned long` arithmetic). -/
def elapsed32 (now last : Nat) : Nat :=
  (now + 4294967296 - last) % 4294967296

/-- The resync condition `millis() - lastTimeSync > syncInterval`. -/
def resyncDue (now last : Nat) : Bool :=
  decide (syncInterval < elapsed32 now last)

/-- Lines 112-117: resync time with NTP and update `lastTimeSync` when due. -/
def stepSync (env : CycleEnv) (st : ClockState) : ClockState :=
  if resyncDue env.now st.lastTimeSync then { st with lastTimeSync := env.now } else st

/-- Lines 119-127: read the current time into `currentHour`/`currentMinute`
when `getLocalTime` succeeds (otherwise the previous values are kept). -/
def stepTime (env : CycleEnv) (st : ClockState) : ClockState :=
  if env.timeValid then
    { st with currentHour := env.tmHour, currentMinute := env.tmMin }
  else st

/-- Lines 129-135: when Wi-Fi is connected, reconnect MQTT if needed (setting
`mqttColorActive = false` as fallback) and service the client, delivering the
pending messages to `mqttCallback`. -/
def stepMqtt (env : CycleEnv) (st : ClockState) : ClockState :=
  if env.wifiUp then
    env.msgs.foldl (fun s m => handleMessage m.1 m.2 s)
      (if env.mqttConnectedAtCheck then st else { st with mqttColorActive := false })
  else st

/-- Everything one `loop()` iteration produces. -/
structure CycleResult where
  /-- The global state after the iteration. -/
  state : ClockState
  /-- The colour the frame was composed with (lines 137-141). -/
  displayColor : Nat
  /-- Whether the NTP resync branch ran this iteration. -/
  ntpResynced : Bool
  /-- The argument of the `stripClock.setBrightness` call of line 143. -/
  appliedBrightness : Int

/-- One iteration of `loop()`. -/
def loopStep (env : CycleEnv) (st : ClockState) : CycleResult :=
  let st3 := stepMqtt env (stepTime env (stepSync env st))
  let displayColor := if st3.mqttColorActive then st3.mqttColor else clockColour
  { state :=
      { st3 with
        strip := displayTheTime st3.currentHour st3.currentMinute displayColor st3.strip }
    displayColor := displayColor
    ntpResynced := resyncDue env.now st.lastTimeSync
    appliedBrightness := st3.brightness }

/-- Run the main loop through a list of cycle environments. -/
def runLoop (envs : List CycleEnv) (st : ClockState) : ClockState :=
  envs.foldl (fun s e => (loopStep e s).state) st

/-- The display colours of the successive frames composed while running the
main loop through `envs`. -/
def runColors (envs : List CycleEnv) (st : ClockState) : List Nat :=
  match envs with
  | [] => []
  | e :: rest => (loopStep e st).displayColor :: runColors rest (loopStep e st).state

/-- A message activates the colour override exactly when it is on the colour
topic, non-empty, and accepted by the handler. -/
def activatesOverride (p : Topic × List Nat) : Prop :=
  p.1 = Topic.color ∧ p.2 ≠ [] ∧ colorAccepts p.2 = true

instance (p : Topic × List Nat) : Decidable (activatesOverride p) := by
  unfold activatesOverride; infer_instance

/-- No message processed during the cycle (messages are only processed when
Wi-Fi is up) activates the colour override. -/
def noColorActivation (e : CycleEnv) : Prop :=
  e.wifiUp = true → ∀ p ∈ e.msgs, ¬ activatesOverride p

/-! ## Helper lemmas: byte strings and the C numeric parsers -/

lemma takeWhile_eq_self_of_all {p : Nat → Bool} :
    ∀ l : List Nat, (∀ c ∈ l, p c = true) → l.takeWhile p = l := by
  intro l
  induction l with
  | nil => intro _; rfl
  | cons a t ih =>
    intro h
    simp [List.takeWhile_cons, h a (List.mem_cons_self a t),
      ih (fun c hc => h c (List.mem_cons_of_mem a hc))]

lemma dropWhile_eq_nil_of_all {p : Nat → Bool} :
    ∀ l : List Nat, (∀ c ∈ l, p c = true) → l.dropWhile p = [] := by
  intro l
  induction l with
  | nil => intro _; rfl
  | cons a t ih =>
    intro h
    simp [List.dropWhile_cons, h a (List.mem_cons_self a t),
      ih (fun c hc => h c (List.mem_cons_of_mem a hc))]

lemma hex_facts {c : Nat} (h : isHexDigit c = true) :
    isSpace c = false ∧ c ≠ 45 ∧ c ≠ 43 ∧ c ≠ 120 ∧ c ≠ 88 ∧ c ≠ 0 ∧ c ≠ 35 := by
  simp only [isHexDigit, isDigit, isSpace, Bool.or_eq_true, Bool.and_eq_true,
    decide_eq_true_eq, Bool.or_eq_false_iff, Bool.and_eq_false_iff,
    decide_eq_false_iff_not, not_le, not_lt] at h ⊢
  omega

lemma digit_facts {c : Nat} (h : isDigit c = true) :
    isSpace c = false ∧ c ≠ 45 ∧ c ≠ 43 ∧ c ≠ 0 := by
  simp only [isDigit, isSpace, Bool.and_eq_true, decide_eq_true_eq,
    Bool.or_eq_false_iff, Bool.and_eq_false_iff,
    decide_eq_false_iff_not, not_le, not_lt] at h ⊢
  omega

lemma hexVal_lt_16 {c : Nat} (h : isHexDigit c = true) : hexVal c < 16 := by
  simp only [isHexDigit, isDigit, Bool.or_eq_true, Bool.and_eq_true,
    decide_eq_true_eq] at h
  unfold hexVal isDigit
  split_ifs with h1 h2 h3 <;>
    simp only [Bool.and_eq_true, decide_eq_true_eq] at * <;> omega

lemma hexFold_lt :
    ∀ (ds : List Nat), (∀ c ∈ ds, isHexDigit c = true) → ∀ acc : Nat,
      ds.foldl (fun a c => a * 16 + hexVal c) acc < (acc + 1) * 16 ^ ds.length := by
  intro ds
  induction ds with
  | nil => intro _ acc; simpa using Nat.lt_succ_self acc
  | cons c t ih =>
    intro h acc
    have hc : hexVal c < 16 := hexVal_lt_16 (h c (List.mem_cons_self c t))
    have ht := ih (fun x hx => h x (List.mem_cons_of_mem c hx)) (acc * 16 + hexVal c)
    calc (c :: t).foldl (fun a c => a * 16 + hexVal c) acc
        = t.foldl (fun a c => a * 16 + hexVal c) (acc * 16 + hexVal c) := rfl
      _ < (acc * 16 + hexVal c + 1) * 16 ^ t.length := ht
      _ ≤ (acc + 1) * 16 ^ (c :: t).length := by
          rw [List.length_cons, pow_succ]
          have : acc * 16 + hexVal c + 1 ≤ (acc + 1) * 16 := by omega
          calc (acc * 16 + hexVal c + 1) * 16 ^ t.length
              ≤ ((acc + 1) * 16) * 16 ^ t.length :=
                Nat.mul_le_mul_right _ this
            _ = (acc + 1) * (16 ^ t.length * 16) := by ring

lemma hexListVal_lt (ds : List Nat) (h : ∀ c ∈ ds, isHexDigit c = true) :
    hexListVal ds < 16 ^ ds.length := by
  have := hexFold_lt ds h 0
  simpa [hexListVal] using this

lemma strtol16_hex (ds : List Nat) (hne : ds ≠ [])
    (hall : ∀ c ∈ ds, isHexDigit c = true) :
    strtol16 ds = ((hexListVal ds : Int), []) := by
  obtain ⟨c, cs, rfl⟩ := List.exists_cons_of_ne_nil hne
  have hc := hex_facts (hall c (List.mem_cons_self c cs))
  have hdropSp : List.dropWhile isSpace (c :: cs) = c :: cs := by
    simp [List.dropWhile_cons, hc.1]
  have htake : List.takeWhile isHexDigit (c :: cs) = c :: cs :=
    takeWhile_eq_self_of_all _ hall
  have hdropHex : List.dropWhile isHexDigit (c :: cs) = [] :=
    dropWhile_eq_nil_of_all _ hall
  have hsign : ((some c == some 45) || (some c == some 43)) = false := by
    simp [hc.2.1, hc.2.2.1]
  have h0x : ((some c == some 48)
      && ((cs.head? == some 120) || (cs.head? == some 88))
      && ((cs.tail.head?.map isHexDigit).getD false)) = false := by
    cases cs with
    | nil => simp
    | cons c2 cs2 =>
      have h2 := hex_facts (hall c2 (List.mem_cons_of_mem c (List.mem_cons_self c2 cs2)))
      simp [h2.2.2.2.1, h2.2.2.2.2.1]
  simp only [strtol16, hdropSp, List.head?_cons, List.tail_cons, hsign,
    Bool.false_eq_true, if_false, h0x, htake, hdropHex, List.isEmpty_cons]
  simp [hc.2.1]

lemma atoiM_digits (ds : List Nat) (hne : ds ≠ [])
    (hall : ∀ c ∈ ds, isDigit c = true) :
    atoiM ds = (decListVal ds : Int) := by
  obtain ⟨c, cs, rfl⟩ := List.exists_cons_of_ne_nil hne
  have hc := digit_facts (hall c (List.mem_cons_self c cs))
  have hdropSp : List.dropWhile isSpace (c :: cs) = c :: cs := by
    simp [List.dropWhile_cons, hc.1]
  have htake : List.takeWhile isDigit (c :: cs) = c :: cs :=
    takeWhile_eq_self_of_all _ hall
  have hsign : ((some c == some 45) || (some c == some 43)) = false := by
    simp [hc.2.1, hc.2.2.1]
  simp only [atoiM, hdropSp, List.head?_cons, hsign, Bool.false_eq_true,
    if_false, htake]
  simp [hc.2.1]

lemma cstr_eq_self_of_nonzero (l : List Nat) (h : ∀ c ∈ l, c ≠ 0) :
    cstr l = l := by
  apply takeWhile_eq_self_of_all
  intro c hc
  simpa using h c hc

/-- For a canonical payload (optional `'#'` + 6 hex digits) the C string
handed to `strtol` is exactly the 6 hex digits. -/
lemma colorHexStr_canonical (p : List Nat) (h : isCanonicalColor p = true) :
    colorHexStr p = stripHash p ∧ (stripHash p).length = 6 ∧
      ∀ c ∈ stripHash p, isHexDigit c = true := by
  simp only [isCanonicalColor, Bool.and_eq_true, beq_iff_eq, List.all_eq_true] at h
  obtain ⟨hlen, hall⟩ := h
  cases p with
  | nil => simp [stripHash] at hlen
  | cons c r =>
    by_cases hc : c = 35
    · subst hc
      have hsh : stripHash (35 :: r) = r := by simp [stripHash]
      rw [hsh] at hlen hall ⊢
      have hlen7 : (35 :: r).length = 7 := by simp [hlen]
      have htre : ∀ x ∈ (35 :: r), x ≠ 0 := by
        intro x hx
        rcases List.mem_cons.mp hx with rfl | hx'
        · omega
        · exact (hex_facts (hall x hx')).2.2.2.2.2.1
      refine ⟨?_, hlen, hall⟩
      unfold colorHexStr
      rw [List.take_of_length_le (by omega), cstr_eq_self_of_nonzero _ htre]
      simp
    · have hsh : stripHash (c :: r) = c :: r := by
        simp [stripHash, hc]
      rw [hsh] at hlen hall ⊢
      have htre : ∀ x ∈ (c :: r), x ≠ 0 := fun x hx =>
        (hex_facts (hall x hx)).2.2.2.2.2.1
      refine ⟨?_, hlen, hall⟩
      unfold colorHexStr
      rw [List.take_of_length_le (by simp [hlen]), cstr_eq_self_of_nonzero _ htre]
      simp [hc]

/-! ## C1: colour-topic payload handling -/

/-- C1 (corrected).  For every inbound colour-topic payload: the override
becomes active exactly when the payload is non-empty and passes the handler's
acceptance test `colorAccepts` (first at most 7 bytes, one optional leading
`'#'`, then `strtol(_, _, 16)` must consume the whole remaining 6-character
string); an empty payload deactivates the override; every rejected non-empty
payload deactivates the override; and every payload consisting of an optional
leading `'#'` followed by exactly 6 hexadecimal characters is accepted and
activates the override with the parsed 24-bit value.  (Acceptance is strictly
broader than that canonical form — see the counterexample.) -/
theorem clock_c1 (payload : List Nat) (st : ClockState) :
    ((applyColorMsg payload st).mqttColorActive = true ↔
        payload ≠ [] ∧ colorAccepts payload = true)
    ∧ (payload = [] → (applyColorMsg payload st).mqttColorActive = false)
    ∧ (payload ≠ [] → colorAccepts payload = false →
        (applyColorMsg payload st).mqttColorActive = false)
    ∧ (isCanonicalColor payload = true →
        (applyColorMsg payload st).mqttColorActive = true
        ∧ (applyColorMsg payload st).mqttColor = hexListVal (stripHash payload)
        ∧ hexListVal (stripHash payload) < 16777216) := by
  have hmain : ∀ q : List Nat, q ≠ [] → colorAccepts q = true →
      (applyColorMsg q st).mqttColorActive = true ∧
        (applyColorMsg q st).mqttColor =
          ((strtol16 (colorHexStr q)).1 % 4294967296).toNat := by
    intro q hq hacc
    unfold applyColorMsg
    rw [if_neg (by simpa using hq), if_pos hacc]
    exact ⟨rfl, rfl⟩
  refine ⟨?_, ?_, ?_, ?_⟩
  · constructor
    · intro hact
      by_cases h0 : payload = []
      · subst h0; simp [applyColorMsg] at hact
      · refine ⟨h0, ?_⟩
        by_cases hacc : colorAccepts payload = true
        · exact hacc
        · unfold applyColorMsg at hact
          rw [if_neg (by simpa using h0),
            if_neg (by simpa using hacc)] at hact
          simp at hact
    · intro ⟨h0, hacc⟩
      exact (hmain payload h0 hacc).1
  · intro h0
    subst h0
    simp [applyColorMsg]
  · intro h0 hacc
    unfold applyColorMsg
    rw [if_neg (by simpa using h0), if_neg (by simp [hacc])]
  · intro hcan
    obtain ⟨hhex, hlen, hall⟩ := colorHexStr_canonical payload hcan
    have hne : stripHash payload ≠ [] := by
      intro h
      rw [h] at hlen
      simp at hlen
    have hst : strtol16 (colorHexStr payload) = ((hexListVal (stripHash payload) : Int), []) := by
      rw [hhex]
      exact strtol16_hex _ hne hall
    have hbound : hexListVal (stripHash payload) < 16777216 := by
      have := hexListVal_lt _ hall
      rw [hlen] at this
      omega
    have hq : payload ≠ [] := by
      intro h
      subst h
      simp [stripHash] at hlen
    have hacc : colorAccepts payload = true := by
      unfold colorAccepts
      rw [hst, hhex]
      simp [hlen]
    obtain ⟨ha, hv⟩ := hmain payload hq hacc
    refine ⟨ha, ?_, hbound⟩
    rw [hv, hst]
    omega

/-- Witness for C1 at the canonical payload `"#ab1234"`. -/
theorem clock_c1_witness :
    (applyColorMsg [35, 97, 98, 49, 50, 51, 52] initState).mqttColorActive = true
    ∧ (applyColorMsg [35, 97, 98, 49, 50, 51, 52] initState).mqttColor = 11211316 := by
  have h := (clock_c1 [35, 97, 98, 49, 50, 51, 52] initState).2.2.2 (by decide)
  refine ⟨h.1, ?_⟩
  rw [h.2.1]
  decide

/-- Counterexample to C1 as stated: the payload `"#1234567"` (a `'#'` followed
by seven hex digits) is not of the claimed accepted form, yet the handler
activates the override with value `0x123456`, because the copy loop truncates
the payload to its first 7 bytes. -/
theorem clock_c1_cex :
    isCanonicalColor [35, 49, 50, 51, 52, 53, 54, 55] = false
    ∧ [35, 49, 50, 51, 52, 53, 54, 55] ≠ ([] : List Nat)
    ∧ (applyColorMsg [35, 49, 50, 51, 52, 53, 54, 55] initState).mqttColorActive = true
    ∧ (applyColorMsg [35, 49, 50, 51, 52, 53, 54, 55] initState).mqttColor = 1193046 := by
  decide

/-! ## C2: brightness-topic payload handling -/

/-- C2 (corrected).  The brightness handler applies C `atoi` to the first at
most 4 payload bytes and stores the result iff it lies in [0,255]: every
non-empty payload of at most 4 decimal digits with value ≤ 255 sets the
brightness exactly; an empty payload leaves it unchanged; a payload whose
`atoi` value falls outside [0,255] leaves it unchanged; and in every case the
brightness is either retained or set to a value in [0,255]. -/
theorem clock_c2 (payload : List Nat) (st : ClockState) :
    (payload ≠ [] → payload.length ≤ 4 → (∀ c ∈ payload, isDigit c = true) →
        decListVal payload ≤ 255 →
        (applyBrightnessMsg payload st).brightness = (decListVal payload : Int))
    ∧ (payload = [] → (applyBrightnessMsg payload st).brightness = st.brightness)
    ∧ (¬ (0 ≤ atoiM (brightnessCStr payload) ∧ atoiM (brightnessCStr payload) ≤ 255) →
        (applyBrightnessMsg payload st).brightness = st.brightness)
    ∧ ((applyBrightnessMsg payload st).brightness = st.brightness ∨
        (0 ≤ (applyBrightnessMsg payload st).brightness
          ∧ (applyBrightnessMsg payload st).brightness ≤ 255)) := by
  refine ⟨?_, ?_, ?_, ?_⟩
  · intro hne hlen hall hval
    have htake : payload.take 4 = payload := List.take_of_length_le hlen
    have hcstr : brightnessCStr payload = payload := by
      unfold brightnessCStr
      rw [htake]
      exact cstr_eq_self_of_nonzero _ (fun c hc => (digit_facts (hall c hc)).2.2.2)
    have hatoi : atoiM (brightnessCStr payload) = (decListVal payload : Int) := by
      rw [hcstr]
      exact atoiM_digits _ hne hall
    unfold applyBrightnessMsg
    rw [if_pos (by simpa [List.length_pos] using hne), hatoi,
      if_pos (by constructor <;> [positivity; exact_mod_cast hval])]
  · intro h0
    subst h0
    simp [applyBrightnessMsg]
  · intro hout
    simp only [applyBrightnessMsg]
    split_ifs with h1
    · rfl
    · rfl
  · simp only [applyBrightnessMsg]
    split_ifs with h1 h2
    · right
      exact h2
    · left; rfl
    · left; rfl

/-- Witness for C2 at the payload `"200"`. -/
theorem clock_c2_witness :
    (applyBrightnessMsg [50, 48, 48] initState).brightness = 200 := by
  have h := (clock_c2 [50, 48, 48] initState).1 (by decide) (by decide)
    (by decide) (by decide)
  rw [h]
  decide

/-- Counterexample to C2 as stated: the non-numeric payload `"abc"` must
leave the brightness unchanged according to the claim, but `atoi` returns 0,
which passes the `[0,255]` guard, so the handler sets the brightness to 0
(it was 25). -/
theorem clock_c2_cex :
    [97, 98, 99].all isDigit = false
    ∧ initState.brightness = 25
    ∧ (applyBrightnessMsg [97, 98, 99] initState).brightness = 0 := by
  decide

/-! ## Helper lemmas: the pixel buffer and the digit renderer -/

lemma fill_apply {i : Nat} (hi : i < NUMPIXELS) (c first count : Nat)
    (hcnt : count ≠ 0) (b : Buf) :
    fill c first count b i = if first ≤ i ∧ i < first + count then c else b i := by
  simp only [fill, fillEnd, NUMPIXELS] at hi ⊢
  split_ifs <;> first | rfl | omega

lemma runFills_apply {i : Nat} (hi : i < NUMPIXELS) (c : Nat) :
    ∀ (calls : List (Nat × Nat)) (b : Buf),
      (∀ p ∈ calls, p.2 ≠ 0 ∧ p.1 % 65536 = p.1) →
      runFills c calls b i =
        if calls.any (fun p => decide (p.1 ≤ i) && decide (i < p.1 + p.2)) = true
        then c else b i := by
  intro calls
  induction calls with
  | nil => intro b _; simp [runFills]
  | cons p ps ih =>
    intro b hall
    have hp := hall p (List.mem_cons_self p ps)
    have hps := fun q hq => hall q (List.mem_cons_of_mem p hq)
    have h1 : runFills c (p :: ps) b = runFills c ps (fill c (p.1 % 65536) p.2 b) := rfl
    rw [h1, ih _ hps, hp.2, fill_apply hi c p.1 p.2 hp.1 b]
    simp only [List.any_cons, Bool.or_eq_true, decide_eq_true_eq, Bool.and_eq_true]
    split_ifs <;> first | rfl | tauto

lemma displayNumber_eq_calls (d : Int) (offsetBy colour : Nat) (b : Buf) :
    displayNumber d offsetBy colour b = runFills colour (displayNumberCalls d offsetBy) b := by
  unfold displayNumber displayNumberCalls
  simp only [apply_ite (fun L => runFills colour L b)]
  rfl

/-- For a digit `d < 10` the fill calls of `displayNumber` are exactly the
§4.2 segment runs of `d`: the code-side call lists agree with the spec-side
segment table. -/
lemma displayNumberCalls_eq_segTable (d : Nat) (hd : d < 10) (base : Nat) :
    displayNumberCalls (d : Int) base = (segTable d).map (fun r => (base + r, 3)) := by
  interval_cases d <;> rfl

lemma segTable_eq_nil_of_ge (d : Nat) (h : 10 ≤ d) : segTable d = [] := by
  have hne : d ≠ 0 ∧ d ≠ 1 ∧ d ≠ 2 ∧ d ≠ 3 ∧ d ≠ 4 ∧ d ≠ 5 ∧ d ≠ 6 ∧ d ≠ 7
      ∧ d ≠ 8 ∧ d ≠ 9 := by omega
  obtain ⟨h0, h1, h2, h3, h4, h5, h6, h7, h8, h9⟩ := hne
  simp [segTable, h0, h1, h2, h3, h4, h5, h6, h7, h8, h9]

lemma segTable_le (d : Nat) : ∀ r ∈ segTable d, r ≤ 18 := by
  by_cases h : d < 10
  · interval_cases d <;> decide
  · rw [segTable_eq_nil_of_ge d (by omega)]
    intro r hr
    exact absurd hr (List.not_mem_nil r)

lemma displayNumberCalls_bound (d : Nat) (hd : d < 10) (base : Nat) :
    ∀ p ∈ displayNumberCalls (d : Int) base, base ≤ p.1 ∧ p.1 + p.2 ≤ base + 21 := by
  rw [displayNumberCalls_eq_segTable d hd base]
  intro p hp
  obtain ⟨r, hr, rfl⟩ := List.mem_map.mp hp
  have h18 := segTable_le d r hr
  refine ⟨?_, ?_⟩
  · show base ≤ base + r
    omega
  · show base + r + 3 ≤ base + 21
    omega

lemma any_map_general {α β : Type} (f : α → β) (g : β → Bool) :
    ∀ l : List α, (l.map f).any g = l.any (fun x => g (f x)) := by
  intro l
  induction l with
  | nil => rfl
  | cons a t ih => simp only [List.map_cons, List.any_cons, ih]

lemma displayNumber_apply {i : Nat} (hi : i < NUMPIXELS) (d : Nat) (hd : d < 10)
    (base : Nat) (hbase : base + 21 ≤ 65536) (c : Nat) (b : Buf) :
    displayNumber (d : Int) base c b i =
      if renderSpecAt d base i = true then c else b i := by
  have hok : ∀ p ∈ displayNumberCalls (d : Int) base, p.2 ≠ 0 ∧ p.1 % 65536 = p.1 := by
    intro p hp
    have := displayNumberCalls_bound d hd base p hp
    rw [displayNumberCalls_eq_segTable d hd base] at hp
    obtain ⟨r, hr, rfl⟩ := List.mem_map.mp hp
    have h18 := segTable_le d r hr
    refine ⟨?_, ?_⟩
    · show (3 : Nat) ≠ 0
      decide
    · show (base + r) % 65536 = base + r
      omega
  rw [displayNumber_eq_calls, runFills_apply hi c _ b hok]
  have hcond : (displayNumberCalls (d : Int) base).any
      (fun p => decide (p.1 ≤ i) && decide (i < p.1 + p.2)) = renderSpecAt d base i := by
    rw [displayNumberCalls_eq_segTable d hd base, any_map_general]
    rfl
  rw [hcond]

lemma renderSpecAt_ge {d base i : Nat} (h : base + 21 ≤ i) :
    renderSpecAt d base i = false := by
  unfold renderSpecAt
  rw [List.any_eq_false]
  intro r hr
  have h18 := segTable_le d r hr
  simp only [Bool.and_eq_true, decide_eq_true_eq, not_and, not_lt]
  omega

lemma ite_or_collapse {p q : Prop} [Decidable p] [Decidable q] {c r : Nat} :
    (if p then c else if q then c else r) = if p ∨ q then c else r := by
  split_ifs <;> first | rfl | tauto

set_option maxHeartbeats 3000000 in
/-- The pointwise content of one composed frame: for `i < 86` the pixel is
`c` exactly on the union described by the spec predicate `frameSpecB`. -/
lemma displayTheTime_apply (h m c : Nat) (hh : h < 24) (hm : m < 60) (b : Buf)
    {i : Nat} (hi : i < NUMPIXELS) :
    displayTheTime h m c b i = if frameSpecB h m i = true then c else 0 := by
  have h42 : (42 ≤ i ∧ i < 42 + 1) ↔ i = 42 := by omega
  have h43 : (43 ≤ i ∧ i < 43 + 1) ↔ i = 43 := by omega
  simp only [displayTheTime, ite_apply]
  by_cases h9 : 9 < h
  · rw [if_pos h9,
      displayNumber_apply hi (h % 10) (by omega) 44 (by omega) c _,
      displayNumber_apply hi (h / 10) (by omega) 65 (by omega) c _,
      fill_apply hi c 43 1 (by decide) _,
      fill_apply hi c 42 1 (by decide) _,
      displayNumber_apply hi (m / 10) (by omega) 21 (by omega) c _,
      displayNumber_apply hi (m % 10) (by omega) 0 (by omega) c _]
    simp only [clearBuf, h42, h43, ite_or_collapse]
    refine if_congr ?_ rfl rfl
    simp only [frameSpecB, if_pos h9, Bool.or_eq_true, beq_iff_eq]
    tauto
  · rw [if_neg h9,
      displayNumber_apply hi h (by omega) 44 (by omega) c _,
      fill_apply hi c 43 1 (by decide) _,
      fill_apply hi c 42 1 (by decide) _,
      displayNumber_apply hi (m / 10) (by omega) 21 (by omega) c _,
      displayNumber_apply hi (m % 10) (by omega) 0 (by omega) c _]
    simp only [clearBuf, h42, h43, ite_or_collapse]
    refine if_congr ?_ rfl rfl
    simp only [frameSpecB, if_neg h9, Bool.or_eq_true, beq_iff_eq]
    tauto

/-! ## C3: the digit renderer matches the §4.2 table -/

/-- C3 (confirmed).  For every digit `d ∈ [0,9]`, every base offset (within
the `uint16_t` range of the fill calls) and every colour, `displayNumber` on
a cleared buffer lights pixel `i < 86` exactly when `i` lies in a segment run
`[base+r, base+r+3)` for `r` in the §4.2 table entry of `d`; digit 0's entry
has six segments and excludes the middle segment (+18). -/
theorem clock_c3 : ∀ d : Nat, d < 10 → ∀ base : Nat, base + 21 ≤ 65536 →
    ∀ (c i : Nat), i < 86 →
    (displayNumber (d : Int) base c bufClear i =
      if renderSpecAt d base i = true then c else 0)
    ∧ segTable 0 = [0, 3, 6, 9, 12, 15]
    ∧ 18 ∉ segTable 0 := by
  intro d hd base hbase c i hi
  refine ⟨?_, rfl, by decide⟩
  have happ := displayNumber_apply (i := i) hi d hd base hbase c bufClear
  simpa [bufClear, clearBuf] using happ

/-- Witness for C3: digit 5 at base 0 lights pixel 0 (lower-right segment). -/
theorem clock_c3_witness :
    displayNumber ((5 : Nat) : Int) 0 7 bufClear 0 = 7 := by
  have h := (clock_c3 5 (by decide) 0 (by decide) 7 0 (by decide)).1
  rw [h]
  decide

/-! ## C4: frame composition -/

/-- C4 (confirmed).  For every hour in [0,23] and minute in [0,59], the
composed frame is, pointwise on the 86 pixels, exactly the §4.3 algorithm:
minute ones digit at 0, minute tens digit at 21, separator pixels 42/43 lit
with the frame colour, hour digits at 65/44 when `hour > 9`, the hour value
alone at 44 otherwise — in which case the whole tens slot `[65,86)` stays
unlit. -/
theorem clock_c4 : ∀ h : Nat, h < 24 → ∀ m : Nat, m < 60 → ∀ (c : Nat) (b : Buf),
    (∀ i, i < 86 → displayTheTime h m c b i = if frameSpecB h m i = true then c else 0)
    ∧ displayTheTime h m c b 42 = c
    ∧ displayTheTime h m c b 43 = c
    ∧ (h ≤ 9 → ∀ i, 65 ≤ i → i < 86 → displayTheTime h m c b i = 0) := by
  intro h hh m hm c b
  have happ : ∀ i, i < 86 →
      displayTheTime h m c b i = if frameSpecB h m i = true then c else 0 :=
    fun i hi => displayTheTime_apply h m c hh hm b hi
  refine ⟨happ, ?_, ?_, ?_⟩
  · rw [happ 42 (by omega), if_pos (by simp [frameSpecB])]
  · rw [happ 43 (by omega), if_pos (by simp [frameSpecB])]
  · intro h9 i h65 hi
    rw [happ i hi]
    have hfalse : frameSpecB h m i = false := by
      unfold frameSpecB
      rw [if_neg (by omega)]
      have o1 : renderSpecAt (m % 10) 0 i = false := renderSpecAt_ge (by omega)
      have o2 : renderSpecAt (m / 10) 21 i = false := renderSpecAt_ge (by omega)
      have o3 : renderSpecAt h 44 i = false := renderSpecAt_ge (by omega)
      have e42 : (i == 42) = false := by
        simp only [beq_eq_false_iff_ne, ne_eq]
        omega
      have e43 : (i == 43) = false := by
        simp only [beq_eq_false_iff_ne, ne_eq]
        omega
      simp [o1, o2, o3, e42, e43]
    rw [hfalse]
    simp

/-- Witness for C4 at the §8 example `hour = 9, minute = 5`: the separator
pixel 42 carries the frame colour. -/
theorem clock_c4_witness : displayTheTime 9 5 1 bufClear 42 = 1 :=
  (clock_c4 9 (by decide) 5 (by decide) 1 bufClear).2.1

/-! ## C5: out-of-range digits render nothing -/

/-- C5 (confirmed).  For every `int` digit value outside [0,9] and every base
offset, `displayNumber` hits the `default` case of the switch: the buffer is
returned unchanged and no fill call is performed. -/
theorem clock_c5 : ∀ d : Int, (d < 0 ∨ 9 < d) → ∀ (base c : Nat) (b : Buf),
    displayNumber d base c b = b ∧ displayNumberCalls d base = [] := by
  intro d hd base c b
  have hne : d ≠ 0 ∧ d ≠ 1 ∧ d ≠ 2 ∧ d ≠ 3 ∧ d ≠ 4 ∧ d ≠ 5 ∧ d ≠ 6 ∧ d ≠ 7
      ∧ d ≠ 8 ∧ d ≠ 9 := by
    rcases hd with hlt | hgt <;> omega
  obtain ⟨h0, h1, h2, h3, h4, h5, h6, h7, h8, h9⟩ := hne
  constructor
  · unfold displayNumber
    rw [if_neg h0, if_neg h1, if_neg h2, if_neg h3, if_neg h4, if_neg h5,
      if_neg h6, if_neg h7, if_neg h8, if_neg h9]
  · unfold displayNumberCalls
    rw [if_neg h0, if_neg h1, if_neg h2, if_neg h3, if_neg h4, if_neg h5,
      if_neg h6, if_neg h7, if_neg h8, if_neg h9]

/-- Witness for C5 at digit value −1. -/
theorem clock_c5_witness :
    displayNumber (-1) 0 7 bufClear = bufClear ∧ displayNumberCalls (-1) 0 = [] :=
  clock_c5 (-1) (Or.inl (by decide)) 0 7 bufClear

/-! ## C7: frame composition is independent of the previous buffer -/

/-- C7 (confirmed).  `displayTheTime` starts with `stripClock.clear()`, so the
composed frame does not depend on the previous buffer contents: composing the
same frame twice in succession yields an identical buffer, and any two
starting buffers produce the same frame. -/
theorem clock_c7 : ∀ (h m c : Nat) (b b2 : Buf),
    displayTheTime h m c (displayTheTime h m c b) = displayTheTime h m c b
    ∧ displayTheTime h m c b2 = displayTheTime h m c b :=
  fun _ _ _ _ _ => ⟨rfl, rfl⟩

/-! ## C9: all frame writes are in bounds, slots are disjoint -/

lemma writesTo_of_bound {calls : List (Nat × Nat)} {lo hi i : Nat}
    (hb : ∀ p ∈ calls, lo ≤ p.1 ∧ p.1 + p.2 ≤ hi)
    (hw : writesTo calls i) : lo ≤ i ∧ i < hi := by
  obtain ⟨p, hp, hp1, hp2⟩ := hw
  have := hb p hp
  omega

/-- C9 (confirmed).  For `hour < 24` and `minute < 60`: every fill range of
the composed frame lies inside [0,86); every written index is at most 85, and
85 is actually written (frame for 20:00, middle segment of digit 2 at base
65); each digit slot writes only inside its own 21-index range ([0,21),
[21,42), [44,65), [65,86)); the slots are pairwise disjoint; and none of them
touches the separator indices 42/43. -/
theorem clock_c9 : ∀ h : Nat, h < 24 → ∀ m : Nat, m < 60 →
    (∀ p ∈ displayTheTimeCalls h m, p.1 + p.2 ≤ 86)
    ∧ (∀ i, writesTo (displayTheTimeCalls h m) i → i ≤ 85)
    ∧ writesTo (displayTheTimeCalls 20 0) 85
    ∧ (∀ p ∈ displayNumberCalls ((m % 10 : Nat) : Int) 0, p.1 + p.2 ≤ 21)
    ∧ (∀ p ∈ displayNumberCalls ((m / 10 : Nat) : Int) 21, 21 ≤ p.1 ∧ p.1 + p.2 ≤ 42)
    ∧ (∀ p ∈ displayNumberCalls ((h % 10 : Nat) : Int) 44, 44 ≤ p.1 ∧ p.1 + p.2 ≤ 65)
    ∧ (∀ p ∈ displayNumberCalls ((h / 10 : Nat) : Int) 65, 65 ≤ p.1 ∧ p.1 + p.2 ≤ 86)
    ∧ (∀ i, ¬ (writesTo (displayNumberCalls ((m % 10 : Nat) : Int) 0) i
            ∧ writesTo (displayNumberCalls ((m / 10 : Nat) : Int) 21) i))
    ∧ (∀ i, ¬ (writesTo (displayNumberCalls ((m % 10 : Nat) : Int) 0) i
            ∧ writesTo (displayNumberCalls ((h % 10 : Nat) : Int) 44) i))
    ∧ (∀ i, ¬ (writesTo (displayNumberCalls ((m % 10 : Nat) : Int) 0) i
            ∧ writesTo (displayNumberCalls ((h / 10 : Nat) : Int) 65) i))
    ∧ (∀ i, ¬ (writesTo (displayNumberCalls ((m / 10 : Nat) : Int) 21) i
            ∧ writesTo (displayNumberCalls ((h % 10 : Nat) : Int) 44) i))
    ∧ (∀ i, ¬ (writesTo (displayNumberCalls ((m / 10 : Nat) : Int) 21) i
            ∧ writesTo (displayNumberCalls ((h / 10 : Nat) : Int) 65) i))
    ∧ (∀ i, ¬ (writesTo (displayNumberCalls ((h % 10 : Nat) : Int) 44) i
            ∧ writesTo (displayNumberCalls ((h / 10 : Nat) : Int) 65) i))
    ∧ (∀ L ∈ [displayNumberCalls ((m % 10 : Nat) : Int) 0,
              displayNumberCalls ((m / 10 : Nat) : Int) 21,
              displayNumberCalls ((h % 10 : Nat) : Int) 44,
              displayNumberCalls ((h / 10 : Nat) : Int) 65],
        ¬ writesTo L 42 ∧ ¬ writesTo L 43) := by
  intro h hh m hm
  have b0 := displayNumberCalls_bound (m % 10) (by omega) 0
  have b21 := displayNumberCalls_bound (m / 10) (by omega) 21
  have b44 := displayNumberCalls_bound (h % 10) (by omega) 44
  have b65 := displayNumberCalls_bound (h / 10) (by omega) 65
  have bh44 := displayNumberCalls_bound h
  have hframe : ∀ p ∈ displayTheTimeCalls h m, p.1 + p.2 ≤ 86 := by
    intro p hp
    unfold displayTheTimeCalls at hp
    rcases List.mem_append.mp hp with hp1 | hpHour
    · rcases List.mem_append.mp hp1 with hp2 | hpSep
      · rcases List.mem_append.mp hp2 with hpMo | hpMt
        · have := b0 p hpMo
          omega
        · have := b21 p hpMt
          omega
      · rcases List.mem_cons.mp hpSep with rfl | hpSep2
        · decide
        · rcases List.mem_cons.mp hpSep2 with rfl | hpnil
          · decide
          · exact absurd hpnil (List.not_mem_nil p)
    · by_cases h9 : 9 < h
      · rw [if_pos h9] at hpHour
        rcases List.mem_append.mp hpHour with hpHt | hpHo
        · have := b65 p hpHt
          omega
        · have := b44 p hpHo
          omega
      · rw [if_neg h9] at hpHour
        have := bh44 (by omega) 44 p hpHour
        omega
  refine ⟨hframe, ?_, by decide, ?_, ?_, ?_, ?_, ?_, ?_, ?_, ?_, ?_, ?_, ?_⟩
  · intro i hw
    obtain ⟨p, hp, hp1, hp2⟩ := hw
    have := hframe p hp
    omega
  · intro p hp
    have := b0 p hp
    omega
  · exact b21
  · exact b44
  · exact b65
  · rintro i ⟨hw1, hw2⟩
    have g1 := writesTo_of_bound b0 hw1
    have g2 := writesTo_of_bound b21 hw2
    omega
  · rintro i ⟨hw1, hw2⟩
    have g1 := writesTo_of_bound b0 hw1
    have g2 := writesTo_of_bound b44 hw2
    omega
  · rintro i ⟨hw1, hw2⟩
    have g1 := writesTo_of_bound b0 hw1
    have g2 := writesTo_of_bound b65 hw2
    omega
  · rintro i ⟨hw1, hw2⟩
    have g1 := writesTo_of_bound b21 hw1
    have g2 := writesTo_of_bound b44 hw2
    omega
  · rintro i ⟨hw1, hw2⟩
    have g1 := writesTo_of_bound b21 hw1
    have g2 := writesTo_of_bound b65 hw2
    omega
  · rintro i ⟨hw1, hw2⟩
    have g1 := writesTo_of_bound b44 hw1
    have g2 := writesTo_of_bound b65 hw2
    omega
  · intro L hL
    rcases List.mem_cons.mp hL with rfl | hL1
    · refine ⟨?_, ?_⟩ <;> (intro hw; have := writesTo_of_bound b0 hw; omega)
    · rcases List.mem_cons.mp hL1 with rfl | hL2
      · refine ⟨?_, ?_⟩ <;> (intro hw; have := writesTo_of_bound b21 hw; omega)
      · rcases List.mem_cons.mp hL2 with rfl | hL3
        · refine ⟨?_, ?_⟩ <;> (intro hw; have := writesTo_of_bound b44 hw; omega)
        · rcases List.mem_cons.mp hL3 with rfl | hL4
          · refine ⟨?_, ?_⟩ <;> (intro hw; have := writesTo_of_bound b65 hw; omega)
          · exact absurd hL4 (List.not_mem_nil L)

/-- Witness for C9 at `hour = 20, minute = 0`: index 85, the top of the
claimed write range, is written by that frame. -/
theorem clock_c9_witness : writesTo (displayTheTimeCalls 20 0) 85 :=
  (clock_c9 20 (by decide) 0 (by decide)).2.2.1

/-! ## Helper lemmas: the main-loop state machine -/

lemma applyColorMsg_brightness (p : List Nat) (st : ClockState) :
    (applyColorMsg p st).brightness = st.brightness := by
  unfold applyColorMsg
  split_ifs <;> rfl

lemma applyColorMsg_lastTimeSync (p : List Nat) (st : ClockState) :
    (applyColorMsg p st).lastTimeSync = st.lastTimeSync := by
  unfold applyColorMsg
  split_ifs <;> rfl

lemma applyBrightnessMsg_active (p : List Nat) (st : ClockState) :
    (applyBrightnessMsg p st).mqttColorActive = st.mqttColorActive := by
  simp only [applyBrightnessMsg]
  split_ifs <;> rfl

lemma applyBrightnessMsg_lastTimeSync (p : List Nat) (st : ClockState) :
    (applyBrightnessMsg p st).lastTimeSync = st.lastTimeSync := by
  simp only [applyBrightnessMsg]
  split_ifs <;> rfl

lemma applyBrightnessMsg_brightness_inv (p : List Nat) (st : ClockState)
    (h0 : 0 ≤ st.brightness) (h1 : st.brightness ≤ 255) :
    0 ≤ (applyBrightnessMsg p st).brightness ∧ (applyBrightnessMsg p st).brightness ≤ 255 := by
  simp only [applyBrightnessMsg]
  split_ifs with hlen hval
  · exact hval
  · exact ⟨h0, h1⟩
  · exact ⟨h0, h1⟩

lemma handleMessage_lastTimeSync (t : Topic) (p : List Nat) (st : ClockState) :
    (handleMessage t p st).lastTimeSync = st.lastTimeSync := by
  cases t
  · exact applyColorMsg_lastTimeSync p st
  · exact applyBrightnessMsg_lastTimeSync p st
  · rfl

lemma handleMessage_brightness_inv (t : Topic) (p : List Nat) (st : ClockState)
    (h0 : 0 ≤ st.brightness) (h1 : st.brightness ≤ 255) :
    0 ≤ (handleMessage t p st).brightness ∧ (handleMessage t p st).brightness ≤ 255 := by
  cases t
  · rw [show handleMessage Topic.color p st = applyColorMsg p st from rfl,
      applyColorMsg_brightness]
    exact ⟨h0, h1⟩
  · exact applyBrightnessMsg_brightness_inv p st h0 h1
  · exact ⟨h0, h1⟩

lemma handleMessage_inactive (t : Topic) (p : List Nat) (st : ClockState)
    (h : st.mqttColorActive = false) (hna : ¬ activatesOverride (t, p)) :
    (handleMessage t p st).mqttColorActive = false := by
  cases t with
  | color =>
    show (applyColorMsg p st).mqttColorActive = false
    unfold applyColorMsg
    split_ifs with hl ha
    · rfl
    · exfalso
      apply hna
      refine ⟨rfl, ?_, ha⟩
      intro hnil
      subst hnil
      simp at hl
    · rfl
  | brightness =>
    rw [show handleMessage Topic.brightness p st = applyBrightnessMsg p st from rfl,
      applyBrightnessMsg_active]
    exact h
  | other => exact h

lemma foldlMsgs_lastTimeSync :
    ∀ (msgs : List (Topic × List Nat)) (st : ClockState),
      (msgs.foldl (fun s m => handleMessage m.1 m.2 s) st).lastTimeSync = st.lastTimeSync := by
  intro msgs
  induction msgs with
  | nil => intro st; rfl
  | cons q qs ih =>
    intro st
    simp only [List.foldl_cons]
    rw [ih, handleMessage_lastTimeSync]

lemma foldlMsgs_brightness_inv :
    ∀ (msgs : List (Topic × List Nat)) (st : ClockState),
      0 ≤ st.brightness → st.brightness ≤ 255 →
      0 ≤ (msgs.foldl (fun s m => handleMessage m.1 m.2 s) st).brightness
        ∧ (msgs.foldl (fun s m => handleMessage m.1 m.2 s) st).brightness ≤ 255 := by
  intro msgs
  induction msgs with
  | nil => intro st h0 h1; exact ⟨h0, h1⟩
  | cons q qs ih =>
    intro st h0 h1
    simp only [List.foldl_cons]
    have := handleMessage_brightness_inv q.1 q.2 st h0 h1
    exact ih _ this.1 this.2

lemma foldlMsgs_inactive :
    ∀ (msgs : List (Topic × List Nat)) (st : ClockState),
      st.mqttColorActive = false → (∀ q ∈ msgs, ¬ activatesOverride q) →
      (msgs.foldl (fun s m => handleMessage m.1 m.2 s) st).mqttColorActive = false := by
  intro msgs
  induction msgs with
  | nil => intro st h _; exact h
  | cons q qs ih =>
    intro st h hall
    simp only [List.foldl_cons]
    exact ih _
      (handleMessage_inactive q.1 q.2 st h (hall q (List.mem_cons_self q qs)))
      (fun r hr => hall r (List.mem_cons_of_mem q hr))

lemma stepSync_active (env : CycleEnv) (st : ClockState) :
    (stepSync env st).mqttColorActive = st.mqttColorActive := by
  unfold stepSync
  split_ifs <;> rfl

lemma stepTime_active (env : CycleEnv) (st : ClockState) :
    (stepTime env st).mqttColorActive = st.mqttColorActive := by
  unfold stepTime
  split_ifs <;> rfl

lemma stepSync_brightness (env : CycleEnv) (st : ClockState) :
    (stepSync env st).brightness = st.brightness := by
  unfold stepSync
  split_ifs <;> rfl

lemma stepTime_brightness (env : CycleEnv) (st : ClockState) :
    (stepTime env st).brightness = st.brightness := by
  unfold stepTime
  split_ifs <;> rfl

lemma stepTime_lastTimeSync (env : CycleEnv) (st : ClockState) :
    (stepTime env st).lastTimeSync = st.lastTimeSync := by
  unfold stepTime
  split_ifs <;> rfl

lemma stepMqtt_lastTimeSync (env : CycleEnv) (st : ClockState) :
    (stepMqtt env st).lastTimeSync = st.lastTimeSync := by
  unfold stepMqtt
  split_ifs with hw hc
  · rw [foldlMsgs_lastTimeSync]
  · rw [foldlMsgs_lastTimeSync]
  · rfl

lemma stepMqtt_brightness_inv (env : CycleEnv) (st : ClockState)
    (h0 : 0 ≤ st.brightness) (h1 : st.brightness ≤ 255) :
    0 ≤ (stepMqtt env st).brightness ∧ (stepMqtt env st).brightness ≤ 255 := by
  unfold stepMqtt
  split_ifs with hw hc
  · exact foldlMsgs_brightness_inv env.msgs st h0 h1
  · exact foldlMsgs_brightness_inv env.msgs _ h0 h1
  · exact ⟨h0, h1⟩

lemma stepMqtt_inactive_of_disconnect (env : CycleEnv) (st : ClockState)
    (hw : env.wifiUp = true) (hd : env.mqttConnectedAtCheck = false)
    (hmsg : ∀ q ∈ env.msgs, ¬ activatesOverride q) :
    (stepMqtt env st).mqttColorActive = false := by
  unfold stepMqtt
  rw [if_pos hw, if_neg (by simp [hd])]
  exact foldlMsgs_inactive _ _ rfl hmsg

lemma stepMqtt_inactive_preserve (env : CycleEnv) (st : ClockState)
    (h : st.mqttColorActive = false) (hna : noColorActivation env) :
    (stepMqtt env st).mqttColorActive = false := by
  unfold stepMqtt
  split_ifs with hw hc
  · exact foldlMsgs_inactive _ _ h (hna hw)
  · exact foldlMsgs_inactive _ _ rfl (hna hw)
  · exact h

lemma loopStep_displayColor (env : CycleEnv) (st : ClockState) :
    (loopStep env st).displayColor =
      (if (stepMqtt env (stepTime env (stepSync env st))).mqttColorActive = true
       then (stepMqtt env (stepTime env (stepSync env st))).mqttColor
       else clockColour) := rfl

lemma loopStep_inactive (e : CycleEnv) (s : ClockState)
    (h : s.mqttColorActive = false) (hna : noColorActivation e) :
    (loopStep e s).state.mqttColorActive = false
    ∧ (loopStep e s).displayColor = clockColour := by
  have h3 : (stepMqtt e (stepTime e (stepSync e s))).mqttColorActive = false := by
    apply stepMqtt_inactive_preserve
    · rw [stepTime_active, stepSync_active]
      exact h
    · exact hna
  refine ⟨h3, ?_⟩
  rw [loopStep_displayColor, h3]
  simp

/-! ## C6: bus disconnect clears the colour override -/

/-- C6 (confirmed).  When the loop's connectivity check finds the MQTT
session disconnected (Wi-Fi up, `mqttClient.connected()` false) and no
message processed during the cycle activates the override, the override is
cleared before the frame is composed: that cycle's frame uses the configured
default `clockColour`, and — as long as no later cycle delivers a valid
colour message — so does every subsequent frame.  (The check of line 130 is
only reached when Wi-Fi is connected; `CycleEnv.wifiUp` records that.) -/
theorem clock_c6 (env : CycleEnv) (st : ClockState)
    (hw : env.wifiUp = true) (hd : env.mqttConnectedAtCheck = false)
    (hna : noColorActivation env) :
    (loopStep env st).displayColor = clockColour
    ∧ (loopStep env st).state.mqttColorActive = false
    ∧ (∀ envs : List CycleEnv, (∀ e ∈ envs, noColorActivation e) →
        (runLoop envs (loopStep env st).state).mqttColorActive = false)
    ∧ (∀ envs : List CycleEnv, (∀ e ∈ envs, noColorActivation e) →
        ∀ col ∈ runColors envs (loopStep env st).state, col = clockColour) := by
  have h3 : (stepMqtt env (stepTime env (stepSync env st))).mqttColorActive = false :=
    stepMqtt_inactive_of_disconnect env _ hw hd (hna hw)
  have hstate : (loopStep env st).state.mqttColorActive = false := h3
  have hcol : (loopStep env st).displayColor = clockColour := by
    rw [loopStep_displayColor, h3]
    simp
  have hrun : ∀ (envs : List CycleEnv) (s : ClockState), s.mqttColorActive = false →
      (∀ e ∈ envs, noColorActivation e) → (runLoop envs s).mqttColorActive = false := by
    intro envs
    induction envs with
    | nil => intro s hs _; exact hs
    | cons e es ih =>
      intro s hs hall
      simp only [runLoop, List.foldl_cons]
      exact ih _ (loopStep_inactive e s hs (hall e (List.mem_cons_self e es))).1
        (fun x hx => hall x (List.mem_cons_of_mem e hx))
  have hcolors : ∀ (envs : List CycleEnv) (s : ClockState), s.mqttColorActive = false →
      (∀ e ∈ envs, noColorActivation e) →
      ∀ col ∈ runColors envs s, col = clockColour := by
    intro envs
    induction envs with
    | nil =>
      intro s _ _ col hcolmem
      simp [runColors] at hcolmem
    | cons e es ih =>
      intro s hs hall col hcolmem
      simp only [runColors, List.mem_cons] at hcolmem
      rcases hcolmem with rfl | hmem
      · exact (loopStep_inactive e s hs (hall e (List.mem_cons_self e es))).2
      · exact ih _ (loopStep_inactive e s hs (hall e (List.mem_cons_self e es))).1
          (fun x hx => hall x (List.mem_cons_of_mem e hx)) col hmem
  exact ⟨hcol, hstate, fun envs hall => hrun envs _ hstate hall,
    fun envs hall => hcolors envs _ hstate hall⟩

/-- Witness for C6: a cycle with Wi-Fi up, the MQTT session found
disconnected and no inbound messages, starting from a state with an active
red override, composes its frame with the default colour. -/
theorem clock_c6_witness :
    (loopStep ⟨true, false, [], 0, true, 12, 34⟩
        ⟨true, 16711680, 25, 0, 0, 0, bufClear⟩).displayColor = clockColour :=
  (clock_c6 ⟨true, false, [], 0, true, 12, 34⟩ ⟨true, 16711680, 25, 0, 0, 0, bufClear⟩
    rfl rfl (fun _ p hp => absurd hp (List.not_mem_nil p))).1

/-! ## C8: periodic time resynchronization -/

/-- C8 (confirmed).  Whenever the unsigned 32-bit difference
`millis() - lastTimeSync` exceeds `syncInterval` (900,000 ms), the loop
iteration triggers the NTP resync and sets `lastTimeSync` to the current
`millis()` value — for every environment, i.e. independent of Wi-Fi state,
MQTT state, inbound messages and the time read. -/
theorem clock_c8 (env : CycleEnv) (st : ClockState)
    (hdue : syncInterval < elapsed32 env.now st.lastTimeSync) :
    (loopStep env st).ntpResynced = true
    ∧ (loopStep env st).state.lastTimeSync = env.now := by
  have hb : resyncDue env.now st.lastTimeSync = true := by
    unfold resyncDue
    exact decide_eq_true hdue
  constructor
  · exact hb
  · have h1 : (stepSync env st).lastTimeSync = env.now := by
      unfold stepSync
      rw [if_pos hb]
    show (stepMqtt env (stepTime env (stepSync env st))).lastTimeSync = env.now
    rw [stepMqtt_lastTimeSync, stepTime_lastTimeSync, h1]

/-- Witness for C8: 1,000,000 ms after a sync at `millis() = 0`. -/
theorem clock_c8_witness :
    (loopStep ⟨true, true, [], 1000000, false, 0, 0⟩ initState).ntpResynced = true
    ∧ (loopStep ⟨true, true, [], 1000000, false, 0, 0⟩ initState).state.lastTimeSync
        = 1000000 :=
  clock_c8 ⟨true, true, [], 1000000, false, 0, 0⟩ initState (by decide)

/-! ## C10: the brightness invariant -/

/-- C10 (confirmed).  The brightness starts at 25 and stays in [0,255] in
every state reachable by running the main loop, whatever cycles occur; in
particular the value handed to `stripClock.setBrightness` each cycle is
always in [0,255]. -/
theorem clock_c10 :
    initState.brightness = 25
    ∧ ∀ envs : List CycleEnv,
        (0 ≤ (runLoop envs initState).brightness
          ∧ (runLoop envs initState).brightness ≤ 255)
        ∧ ∀ e : CycleEnv,
            0 ≤ (loopStep e (runLoop envs initState)).appliedBrightness
            ∧ (loopStep e (runLoop envs initState)).appliedBrightness ≤ 255 := by
  have hstep : ∀ (e : CycleEnv) (s : ClockState), 0 ≤ s.brightness → s.brightness ≤ 255 →
      0 ≤ (stepMqtt e (stepTime e (stepSync e s))).brightness
        ∧ (stepMqtt e (stepTime e (stepSync e s))).brightness ≤ 255 := by
    intro e s h0 h1
    exact stepMqtt_brightness_inv e _
      (by rw [stepTime_brightness, stepSync_brightness]; exact h0)
      (by rw [stepTime_brightness, stepSync_brightness]; exact h1)
  have hrun : ∀ (envs : List CycleEnv) (s : ClockState), 0 ≤ s.brightness →
      s.brightness ≤ 255 →
      0 ≤ (runLoop envs s).brightness ∧ (runLoop envs s).brightness ≤ 255 := by
    intro envs
    induction envs with
    | nil => intro s h0 h1; exact ⟨h0, h1⟩
    | cons e es ih =>
      intro s h0 h1
      simp only [runLoop, List.foldl_cons]
      have hs := hstep e s h0 h1
      exact ih _ hs.1 hs.2
  refine ⟨rfl, ?_⟩
  intro envs
  have hr := hrun envs initState (by decide) (by decide)
  exact ⟨hr, fun e => hstep e _ hr.1 hr.2⟩

end LedClock
